import Mathlib

/-!
Shallow embedding of the module `tmh/transcribe.py` of the repository
`perezpoz/tmh`, together with a verification of the specification claims
about it.

Conventions of the embedding:
* Python exceptions are modelled by the `Except PyExn` monad; fallible
  indexing returns `Option`.
* The external pretrained-model collaborators (the four inference pathways,
  audio decoding, numpy) are abstracted as function parameters; this file
  models only the logic that lives in `transcribe.py`.
* Python floats are modelled by exact rationals `ℚ`; `numpy.std`, which
  takes a square root, is modelled over `ℝ`.
* Filesystem effects (temporary converted files) are modelled by explicit
  state passing of the list of existing files.
-/

/-- Python exception values relevant to `transcribe.py`: `ValueError`
(raised by `get_model_id`), arbitrary exceptions coming out of the
third-party model libraries, and the domain-level `TranscriptionError`
of the module, which wraps the original cause (`TranscriptionError(e)`). -/
inductive PyExn where
  | valueError (msg : String)
  | libraryError (msg : String)
  | transcriptionError (cause : PyExn)
deriving DecidableEq, Repr

/-- Inference pathways a `TranscribeModel` can dispatch to
(`transcribe_from_audio_path_with_lm_vad`,
`transcribe_from_audio_path_split_on_speech`,
`transcribe_from_audio_path_with_lm`, `transcribe_from_audio_path`, and the
corresponding `bytes` variants). -/
inductive Pathway where
  | lmVad
  | vadOnly
  | lmOnly
  | plain
deriving DecidableEq, Repr

/-- Precedence table stated by the spec (section 4.1): VAD+LM first, then
VAD-only, then LM-only, then plain.  This is the spec-side definition,
written from the words of the spec, to be compared with the code-side
dispatch in `TranscribeModel.transcribe` and
`TranscribeModel.transcribe_bytes`. -/
def dispatchSpec : Bool → Bool → Pathway
  | true, true => .lmVad
  | true, false => .vadOnly
  | false, true => .lmOnly
  | false, false => .plain

/-- Post-processing the orchestrator applies at the dispatch site: only the
LM-only branch lower-cases the pathway result
(`transcribe_from_audio_path_with_lm(...).lower()`); the other branches
return the pathway result unchanged. -/
def lmPostProcess : Pathway → Except PyExn String → Except PyExn String
  | .lmOnly, r => r.map String.toLower
  | _, r => r

/-- Holds exactly when the value is an error that is NOT a
`TranscriptionError`: a raw library exception observed by the caller. -/
def isRawError : Except PyExn String → Bool
  | .error (.transcriptionError _) => false
  | .error _ => true
  | .ok _ => false

/-- Observable steps of the lifetime of a `TranscribeModel`: loading the
model weights in the constructor, and calling inference on audio. -/
inductive Event where
  | modelLoaded
  | inferenceCalled
deriving DecidableEq, Repr

namespace TranscribeModel

/-- Embeds `TranscribeModel.transcribe` (transcribe.py lines 109-159):
dispatches on `(use_vad, use_lm)` with the `if`/`elif` chain of the code,
lower-cases the LM-only result, and wraps ANY exception raised in the `try`
block in a `TranscriptionError`
(`except Exception as e: raise TranscriptionError(e)`).  The four pathway
calls are abstracted as `run`. -/
def transcribe (run : Pathway → Except PyExn String)
    (use_vad use_lm : Bool) : Except PyExn String :=
  match
    (if use_vad && use_lm then run .lmVad
     else if use_vad then run .vadOnly
     else if use_lm then (run .lmOnly).map String.toLower
     else run .plain) with
  | .ok t => .ok t
  | .error e => .error (.transcriptionError e)

/-- Embeds `TranscribeModel.transcribe_bytes` (transcribe.py lines
164-193): the same dispatch chain as `transcribe`, but with NO
`try`/`except` around it: exceptions from the pathway calls propagate to
the caller unchanged. -/
def transcribe_bytes (run : Pathway → Except PyExn String)
    (use_vad use_lm : Bool) : Except PyExn String :=
  if use_vad && use_lm then run .lmVad
  else if use_vad then run .vadOnly
  else if use_lm then (run .lmOnly).map String.toLower
  else run .plain

/-- Embeds `TranscribeModel.get_model_id` (transcribe.py lines 95-107):
with `use_lm`, language `"Swedish"` resolves to the fixed 4-gram checkpoint
and any other language raises `ValueError`; without `use_lm` it delegates
to `tmh.language_files.get_model`, abstracted here as the parameter
`gm`. -/
def get_model_id (gm : String → String) (use_lm : Bool)
    (language : String) : Except PyExn String :=
  if use_lm then
    if language = "Swedish" then
      .ok "viktor-enzell/wav2vec2-large-voxrex-swedish-4gram"
    else
      .error (.valueError ("Language not supported for LM: " ++ language))
  else
    .ok (gm language)

/-- Embeds `TranscribeModel.__init__` (transcribe.py lines 39-57): stores
the configuration, resolves `model_id` (the explicit `model_id` argument
wins, otherwise `get_model_id()` runs), and only then loads model and
processor.  If resolution raises, the constructor aborts: the returned
trace shows which steps ran.  Inference never happens inside the
constructor. -/
def init (gm : String → String) (use_vad use_lm : Bool) (language : String)
    (model_id : Option String) : Except PyExn String × List Event :=
  let resolved : Except PyExn String :=
    match model_id with
    | some mid => .ok mid
    | none => get_model_id gm use_lm language
  match resolved with
  | .error e => (.error e, [])
  | .ok mid => (.ok mid, [Event.modelLoaded])

end TranscribeModel

/-! ### Audio signals, streaming, and the plain inference path -/

/-- A decoded audio signal as the plain path sees it: either a mono sample
sequence or a two-channel one (the only multi-channel case the code
handles: `speech[:, 0] + speech[:, 1]`).  Sample amplitudes are modelled
as integers. -/
inductive Signal where
  | mono (samples : List ℤ)
  | stereo (samples : List (ℤ × ℤ))
deriving DecidableEq, Repr

/-- Channel handling done per block (transcribe.py lines 332-333 and
368-369): a mono block passes through; a two-channel block is downmixed by
sample-wise summation of the two channels. -/
def downmix : Signal → List ℤ
  | .mono xs => xs
  | .stereo xs => xs.map (fun p => p.1 + p.2)

/-- Cuts a sample sequence into consecutive blocks of `n` samples (the
last block may be shorter); the list shape of the lazy iterator that
`librosa.stream` produces over the decoded signal. -/
def chunkList (n : ℕ) : List α → List (List α)
  | [] => []
  | x :: xs => (x :: xs.take (n - 1)) :: chunkList n (xs.drop (n - 1))
termination_by l => l.length
decreasing_by simp; omega

/-- Samples per streamed block: `block_length=30` frames of
`frame_length=16000` samples (30 seconds at 16 kHz), with
`hop_length=16000`, so consecutive blocks do not overlap. -/
def blockSamples : ℕ := 30 * 16000

/-- Block sequence that `librosa.stream(audio_path, block_length=30,
frame_length=16000, hop_length=16000)` yields (transcribe.py lines
324-329): consecutive 30-second blocks of the decoded signal, channel
shape preserved. -/
def streamSignal : Signal → List Signal
  | .mono xs => (chunkList blockSamples xs).map .mono
  | .stereo xs => (chunkList blockSamples xs).map .stereo

/-- Streaming loop of `transcribe_from_audio_path` (transcribe.py lines
331-341): for each block, downmix to mono if needed, run one inference
call (abstracted as `infer`), and append the lower-cased partial
transcript to the accumulator.  The second component counts inference
calls. -/
def transcribeStream (infer : List ℤ → String) (signal : Signal) :
    String × ℕ :=
  (streamSignal signal).foldl
    (fun acc block => (acc.1 ++ (infer (downmix block)).toLower, acc.2 + 1))
    ("", 0)

/-! ### Filesystem effects: format conversion and cleanup -/

/-- Modelled from the spec: `tmh.utils.ensure_wav` is not under `src/`;
per section 2 (Audio Normalizer) and section 6 (Side effects: may write a
temporary converted audio file and delete it after use) it converts an
input that needs format conversion, writing a temporary converted audio
file, and returns the usable path together with a flag telling whether
conversion occurred.  `fs` is the list of existing files; the converted
file is the input path with a `.wav` suffix appended. -/
def ensure_wav (fs : List String) (audio_path : String)
    (needsConversion : Bool) : List String × String × Bool :=
  if needsConversion then
    ((audio_path ++ ".wav") :: fs, audio_path ++ ".wav", true)
  else
    (fs, audio_path, false)

/-- Embeds `transcribe_from_audio_path` (transcribe.py lines 301-347) with
its filesystem effects explicit: normalize via `ensure_wav`, decode the
resulting path (abstracted as `decode`), stream 30-second blocks through
`infer`, and — when conversion occurred — `os.remove` the converted file
before returning.  Result: (files afterwards, transcript, number of
inference calls). -/
def transcribe_from_audio_path (infer : List ℤ → String)
    (decode : String → Signal) (fs : List String) (audio_path : String)
    (needsConversion : Bool) : List String × String × ℕ :=
  let ew := ensure_wav fs audio_path needsConversion
  let tr := transcribeStream infer (decode ew.2.1)
  let fsOut := if ew.2.2 then ew.1.erase ew.2.1 else ew.1
  (fsOut, tr.1, tr.2)

/-- Embeds the module-level `transcribe_bytes` (transcribe.py lines
350-380): decodes the byte buffer to a single signal (no streaming),
downmixes a two-channel signal by sample-wise summation, runs one
inference call and returns the lower-cased transcript. -/
def transcribe_bytes (infer : List ℤ → String) (speech : Signal) : String :=
  (infer (downmix speech)).toLower

/-- Embeds `classify_emotion` (transcribe.py lines 217-235) with its
filesystem effects explicit: normalize via `ensure_wav`, run the emotion
classifier (abstracted as `classify`) on the resulting path, and — when
conversion occurred — `os.remove` the converted file before returning the
labels. -/
def classify_emotion (classify : String → List String) (fs : List String)
    (audio_path : String) (needsConversion : Bool) :
    List String × List String :=
  let ew := ensure_wav fs audio_path needsConversion
  let labels := classify ew.2.1
  let fsOut := if ew.2.2 then ew.1.erase ew.2.1 else ew.1
  (fsOut, labels)

/-! ### Token timestamps and the statistics utilities -/

/-- A decoder-produced token timestamp: start and end offsets in model
frame units plus the character and the word the token belongs to (the code
reads `time_stamp[type]` with `type` one of `char`, `word`). -/
structure TokenTimestamp where
  start_offset : ℤ
  end_offset : ℤ
  char : String
  word : String
deriving DecidableEq, Repr

/-- Grouping-key argument `type` of `get_speech_rate_variability`. -/
inductive GroupKey where
  | char
  | word
deriving DecidableEq, Repr

/-- Accesses `time_stamp[type]`: the string the token is grouped by. -/
def TokenTimestamp.keyOf (type : GroupKey) (ts : TokenTimestamp) : String :=
  match type with
  | .char => ts.char
  | .word => ts.word

/-- Embeds `round(x, 2)` of Python: round to 2 decimal places.  (Python
rounds half-to-even; the two definitions differ only when `x * 100` falls
exactly between two integers, which cannot happen for the inputs the
module produces — integer frame offsets scaled by `320/16000 = 1/50` give
exact multiples of `1/100`.) -/
def round2 (q : ℚ) : ℚ := ((round (q * 100) : ℤ) : ℚ) / 100

/-- One iteration of the `for time_stamp in time_stamps[0]` loop of
`get_speech_rate_variability` (transcribe.py lines 271-281): compute the
rounded start and end times, their difference, and append it to the
duration list of the key of the token. -/
def addDuration (type : GroupKey) (d : String → List ℚ)
    (time_stamp : TokenTimestamp) : String → List ℚ :=
  let start_time := round2 ((time_stamp.start_offset : ℚ) * (320 / 16000))
  let end_time := round2 ((time_stamp.end_offset : ℚ) * (320 / 16000))
  let duration := end_time - start_time
  fun k => if k = time_stamp.keyOf type then d k ++ [duration] else d k

/-- The `token_durations` dictionary built by `get_speech_rate_variability`
(as the list of durations recorded under each key; `[]` means the key is
absent). -/
def token_durations (type : GroupKey) (time_stamps : List TokenTimestamp) :
    String → List ℚ :=
  time_stamps.foldl (addDuration type) (fun _ => [])

/-- Embeds `calculate_variance` (transcribe.py lines 257-264): population
variance — sum of squared deviations from the mean, divided by the count,
not by the count minus one.  Python raises `ZeroDivisionError` on an empty
list, hence `Option`. -/
def calculate_variance (data : List ℚ) : Option ℚ :=
  match data with
  | [] => none
  | _ :: _ =>
    let n : ℚ := (data.length : ℚ)
    let mean := data.sum / n
    let deviations := data.map (fun x => (x - mean) ^ 2)
    some (deviations.sum / n)

/-- Models `numpy.std(data)`: the population standard deviation — square
root of the mean of squared deviations from the mean. -/
noncomputable def npStd (data : List ℚ) : ℝ :=
  let mean := data.sum / (data.length : ℚ)
  let variance := (data.map (fun x => (x - mean) ^ 2)).sum /
    (data.length : ℚ)
  Real.sqrt (variance : ℝ)

/-- The three dictionaries `get_speech_rate_variability` returns, as
key-indexed partial maps (`none` = key absent). -/
structure VariabilityResult where
  averages : String → Option ℚ
  stds : String → Option ℝ
  variances : String → Option ℚ

/-- Embeds `get_speech_rate_variability` (transcribe.py lines 267-298):
build `token_durations` from `time_stamps[0]` (an empty outer list would
raise `IndexError`, hence `Option`), then for each recorded key compute
the average `np.sum(durations) / len(durations)`, the standard deviation
`np.std(durations)`, and the variance `calculate_variance(durations)`. -/
noncomputable def get_speech_rate_variability (type : GroupKey)
    (time_stamps : List (List TokenTimestamp)) :
    Option VariabilityResult :=
  match time_stamps with
  | [] => none
  | inner :: _ =>
    let td := token_durations type inner
    some
      { averages := fun k =>
          match td k with
          | [] => none
          | d :: ds => some ((d :: ds).sum / (((d :: ds).length : ℕ) : ℚ))
        stds := fun k =>
          match td k with
          | [] => none
          | d :: ds => some (npStd (d :: ds))
        variances := fun k =>
          match td k with
          | [] => none
          | d :: ds => calculate_variance (d :: ds) }

/-- The average reported for key `k`; `none` when the input is degenerate
or the key absent. -/
noncomputable def avgAt (type : GroupKey)
    (time_stamps : List (List TokenTimestamp)) (k : String) : Option ℚ :=
  (get_speech_rate_variability type time_stamps).bind fun r => r.averages k

/-- The standard deviation reported for key `k`. -/
noncomputable def stdAt (type : GroupKey)
    (time_stamps : List (List TokenTimestamp)) (k : String) : Option ℝ :=
  (get_speech_rate_variability type time_stamps).bind fun r => r.stds k

/-- The variance reported for key `k`. -/
noncomputable def varAt (type : GroupKey)
    (time_stamps : List (List TokenTimestamp)) (k : String) : Option ℚ :=
  (get_speech_rate_variability type time_stamps).bind fun r => r.variances k

/-- Embeds `get_speech_rate_time_stamps` (transcribe.py lines 245-254):
duration from the start offset of the first token to the end offset of the
last token of `time_stamps[0]`, divided by the token count, scaled by
`320 / 16000` (defaults `downsample=320`, `sample_rate=16000`).  An empty
outer or inner list would raise `IndexError`, hence `Option`. -/
def get_speech_rate_time_stamps
    (time_stamps : List (List TokenTimestamp)) : Option ℚ :=
  match time_stamps with
  | [] => none
  | inner :: _ =>
    match inner with
    | [] => none
    | first :: rest =>
      let start_time := first.start_offset
      let end_time :=
        ((first :: rest).get ⟨(first :: rest).length - 1, by simp⟩).end_offset
      let duration := end_time - start_time
      some ((((duration : ℚ) / (((first :: rest).length : ℕ) : ℚ)) * 320) /
        16000)

/-! ### Spec-side statistics definitions (written from the words of the
spec, for comparison with the code-side functions above) -/

/-- Spec: token duration = (end offset times 320/16000, rounded to 2
decimals) minus (start offset times 320/16000, rounded to 2 decimals). -/
def durationSpec (ts : TokenTimestamp) : ℚ :=
  round2 ((ts.end_offset : ℚ) * 320 / 16000) -
    round2 ((ts.start_offset : ℚ) * 320 / 16000)

/-- Spec: the durations of the tokens carrying key `k`, in input order. -/
def groupDurationsSpec (type : GroupKey) (k : String)
    (time_stamps : List TokenTimestamp) : List ℚ :=
  (time_stamps.filter (fun ts => ts.keyOf type = k)).map durationSpec

/-- Spec: the mean of a list of durations. -/
def meanSpec (ds : List ℚ) : ℚ := ds.sum / (ds.length : ℚ)

/-- Spec: population variance — the mean of squared deviations from the
mean. -/
def popVarianceSpec (ds : List ℚ) : ℚ :=
  (ds.map (fun x => (x - meanSpec ds) ^ 2)).sum / (ds.length : ℚ)

/-! ### Helper lemmas -/

/-- The `try`/`except` wrapper of `transcribe` never lets a non-wrapped
error through, whatever the body produced. -/
theorem wrap_not_raw (r : Except PyExn String) :
    isRawError
      (match r with
        | .ok t => .ok t
        | .error e => .error (.transcriptionError e)) = false := by
  cases r <;> rfl

/-- Rejoining the streamed blocks gives back the original sample list: the
blocks are a sequential partition. -/
theorem chunkList_flatten (n : ℕ) (xs : List α) :
    (chunkList n xs).flatten = xs := by
  suffices h : ∀ (m : ℕ) (ys : List α), ys.length ≤ m →
      (chunkList n ys).flatten = ys from h xs.length xs le_rfl
  intro m
  induction m with
  | zero =>
      intro ys hy
      have : ys = [] := List.eq_nil_of_length_eq_zero (Nat.le_zero.mp hy)
      subst this
      simp [chunkList]
  | succ m ih =>
      intro ys hy
      cases ys with
      | nil => simp [chunkList]
      | cons x t =>
          rw [chunkList, List.flatten_cons,
            ih (t.drop (n - 1)) (by simp at hy ⊢; omega)]
          simp [List.take_append_drop]

/-- Every streamed block holds at least one and at most `max n 1`
samples. -/
theorem chunkList_block_size (n : ℕ) (xs : List α) :
    ∀ b ∈ chunkList n xs, 0 < b.length ∧ b.length ≤ max n 1 := by
  suffices h : ∀ (m : ℕ) (ys : List α), ys.length ≤ m →
      ∀ b ∈ chunkList n ys, 0 < b.length ∧ b.length ≤ max n 1 from
    h xs.length xs le_rfl
  intro m
  induction m with
  | zero =>
      intro ys hy
      have : ys = [] := List.eq_nil_of_length_eq_zero (Nat.le_zero.mp hy)
      subst this
      simp [chunkList]
  | succ m ih =>
      intro ys hy b hb
      cases ys with
      | nil => simp [chunkList] at hb
      | cons x t =>
          rw [chunkList] at hb
          rcases List.mem_cons.mp hb with hb | hb
          · subst hb
            refine ⟨by simp, ?_⟩
            simp [List.length_take]
            omega
          · exact ih (t.drop (n - 1)) (by simp at hy ⊢; omega) b hb

/-- Peels the head summand off `String.join`. -/
theorem string_join_cons (s : String) (l : List String) :
    String.join (s :: l) = s ++ String.join l := by
  apply String.ext
  simp [String.data_join]

/-- Folding the streaming loop equals mapping each block through
(downmix, infer, lower-case) and concatenating, and counts one inference
call per block. -/
theorem transcribeStream_eq (infer : List ℤ → String) (signal : Signal) :
    transcribeStream infer signal =
      (String.join ((streamSignal signal).map
          (fun b => (infer (downmix b)).toLower)),
        (streamSignal signal).length) := by
  unfold transcribeStream
  generalize streamSignal signal = blocks
  suffices h : ∀ (blocks : List Signal) (acc : String) (k : ℕ),
      blocks.foldl
        (fun acc block =>
          (acc.1 ++ (infer (downmix block)).toLower, acc.2 + 1)) (acc, k) =
      (acc ++ String.join (blocks.map (fun b => (infer (downmix b)).toLower)),
        k + blocks.length) by
    simpa using h blocks "" 0
  intro blocks
  induction blocks with
  | nil =>
      intro acc k
      simp [String.join]
  | cons b bs ih =>
      intro acc k
      rw [List.foldl_cons, ih, List.map_cons, string_join_cons]
      refine Prod.ext ?_ ?_
      · simp [String.append_assoc]
      · simp
        omega

/-- Downmixing preserves the number of samples. -/
theorem downmix_stereo_length (xs : List (ℤ × ℤ)) :
    (downmix (Signal.stereo xs)).length = xs.length := by
  simp [downmix]

/-- The dictionary-building fold records under key `k` exactly the
durations of the tokens carrying key `k`, in input order, behind whatever
the accumulator already held. -/
theorem foldl_addDuration_eq (type : GroupKey)
    (tss : List TokenTimestamp) :
    ∀ (d : String → List ℚ) (k : String),
      (tss.foldl (addDuration type) d) k =
        d k ++ groupDurationsSpec type k tss := by
  induction tss with
  | nil =>
      intro d k
      simp [groupDurationsSpec]
  | cons ts tss ih =>
      intro d k
      rw [List.foldl_cons, ih]
      have harg : ∀ x : ℚ, x * (320 / 16000) = x * 320 / 16000 := by
        intro x
        ring
      by_cases hk : k = ts.keyOf type
      · simp [addDuration, groupDurationsSpec, List.filter_cons, hk,
          durationSpec, harg]
      · simp [addDuration, groupDurationsSpec, List.filter_cons, hk,
          Ne.symm hk]

/-- The dictionary `token_durations` agrees with the spec-side grouping. -/
theorem token_durations_eq (type : GroupKey)
    (tss : List TokenTimestamp) (k : String) :
    token_durations type tss k = groupDurationsSpec type k tss := by
  simpa [token_durations] using foldl_addDuration_eq type tss (fun _ => []) k

/-- On a non-empty list, `calculate_variance` is the spec-side population
variance. -/
theorem calculate_variance_eq (d : ℚ) (ds : List ℚ) :
    calculate_variance (d :: ds) = some (popVarianceSpec (d :: ds)) := by
  simp [calculate_variance, popVarianceSpec, meanSpec]

/-- The model of `numpy.std` is the square root of the spec-side
population variance. -/
theorem npStd_eq (ds : List ℚ) :
    npStd ds = Real.sqrt ((popVarianceSpec ds : ℚ) : ℝ) := by
  simp [npStd, popVarianceSpec, meanSpec]

/-- The population variance is non-negative. -/
theorem popVarianceSpec_nonneg (ds : List ℚ) : 0 ≤ popVarianceSpec ds := by
  unfold popVarianceSpec
  apply div_nonneg
  · apply List.sum_nonneg
    intro x hx
    rcases List.mem_map.mp hx with ⟨y, _, rfl⟩
    positivity
  · positivity

/-- The population variance of a one-element list is `0`. -/
theorem popVarianceSpec_singleton (d : ℚ) : popVarianceSpec [d] = 0 := by
  simp [popVarianceSpec, meanSpec]

/-- A key carried by some token yields a non-empty duration group. -/
theorem groupDurationsSpec_ne_nil (type : GroupKey)
    (inner : List TokenTimestamp) (k : String)
    (hk : ∃ ts ∈ inner, ts.keyOf type = k) :
    groupDurationsSpec type k inner ≠ [] := by
  rcases hk with ⟨ts, hts, hkey⟩
  unfold groupDurationsSpec
  intro hnil
  rcases List.map_eq_nil_iff.mp hnil with hfil
  have : ts ∈ inner.filter (fun t => t.keyOf type = k) :=
    List.mem_filter.mpr ⟨hts, by simp [hkey]⟩
  rw [hfil] at this
  exact List.not_mem_nil ts this

/-! ### Claim theorems -/

/-- C1: for every valid configuration `(use_vad, use_lm)` and every
behaviour of the four pathways, both transcription entry points invoke
exactly the pathway given by the precedence table of the spec (VAD+LM,
then VAD-only, then LM-only, then plain): `transcribe` returns the result
of that pathway (LM-lower-cased where the code does so) wrapped by its
error handler, and `transcribe_bytes` returns it directly. -/
theorem transcribe_dispatch_precedence (use_vad use_lm : Bool)
    (run : Pathway → Except PyExn String) :
    TranscribeModel.transcribe run use_vad use_lm =
      (match lmPostProcess (dispatchSpec use_vad use_lm)
          (run (dispatchSpec use_vad use_lm)) with
        | .ok t => .ok t
        | .error e => .error (.transcriptionError e)) ∧
    TranscribeModel.transcribe_bytes run use_vad use_lm =
      lmPostProcess (dispatchSpec use_vad use_lm)
        (run (dispatchSpec use_vad use_lm)) := by
  cases use_vad <;> cases use_lm <;>
    simp [TranscribeModel.transcribe, TranscribeModel.transcribe_bytes,
      dispatchSpec, lmPostProcess]

/-- C2, counterexample: `transcribe_bytes` is a transcription entry point,
yet when a pathway raises a raw library exception it reaches the caller
unwrapped — no `TranscriptionError` is involved, contradicting the claim
that callers never observe a raw library exception. -/
theorem transcribe_bytes_raw_error_cex :
    TranscribeModel.transcribe_bytes
        (fun _ => .error (PyExn.libraryError "model failure")) false false =
      .error (PyExn.libraryError "model failure") ∧
    isRawError (TranscribeModel.transcribe_bytes
        (fun _ => .error (PyExn.libraryError "model failure")) false false) =
      true := by
  constructor <;> rfl

/-- C2, amended: only the file-path entry point `transcribe` catches
exceptions from model invocation and re-raises them as a
`TranscriptionError` wrapping the original cause — its callers never
observe a raw library exception; `transcribe_bytes` has no handler and
propagates exceptions raw. -/
theorem transcribe_wraps_invocation_errors (use_vad use_lm : Bool)
    (run : Pathway → Except PyExn String) :
    isRawError (TranscribeModel.transcribe run use_vad use_lm) = false ∧
    TranscribeModel.transcribe_bytes
        (fun _ => .error (PyExn.libraryError "model failure"))
        use_vad use_lm =
      .error (PyExn.libraryError "model failure") := by
  constructor
  · exact wrap_not_raw _
  · cases use_vad <;> cases use_lm <;>
      simp [TranscribeModel.transcribe_bytes, Except.map]

/-- C3: constructing a `TranscribeModel` with `use_lm = true` and no
explicit `model_id` resolves the fixed Swedish 4-gram checkpoint when the
language is `"Swedish"`, and for every other language fails resolution
with a `ValueError` before the model is loaded; in no case does the
constructor attempt an inference call. -/
theorem lm_model_resolution (gm : String → String) (use_vad : Bool)
    (language : String) :
    TranscribeModel.init gm use_vad true language none =
      (if language = "Swedish" then
        (Except.ok "viktor-enzell/wav2vec2-large-voxrex-swedish-4gram",
          [Event.modelLoaded])
      else
        (Except.error
          (PyExn.valueError ("Language not supported for LM: " ++ language)),
          ([] : List Event))) ∧
    Event.inferenceCalled ∉
      (TranscribeModel.init gm use_vad true language none).2 := by
  constructor
  · by_cases h : language = "Swedish" <;>
      simp [TranscribeModel.init, TranscribeModel.get_model_id, h]
  · by_cases h : language = "Swedish" <;>
      simp [TranscribeModel.init, TranscribeModel.get_model_id, h]

/-- C4: on the plain file-input path, the decoded signal is partitioned
into sequential 30-second blocks (480000 samples each, last one possibly
shorter) whose rejoining is the whole signal; exactly one inference call
runs per block; and the returned transcript is the concatenation, in block
order with no separator, of the lower-cased partial transcripts. -/
theorem plain_path_streaming (infer : List ℤ → String)
    (decode : String → Signal) (fs : List String) (audio_path : String)
    (needsConversion : Bool) :
    (transcribe_from_audio_path infer decode fs audio_path
        needsConversion).2.1 =
      String.join
        ((streamSignal
            (decode (ensure_wav fs audio_path needsConversion).2.1)).map
          (fun b => (infer (downmix b)).toLower)) ∧
    (transcribe_from_audio_path infer decode fs audio_path
        needsConversion).2.2 =
      (streamSignal
          (decode (ensure_wav fs audio_path needsConversion).2.1)).length ∧
    (∀ xs : List ℤ, (chunkList blockSamples xs).flatten = xs) ∧
    (∀ xs : List ℤ, ∀ b ∈ chunkList blockSamples xs,
      0 < b.length ∧ b.length ≤ blockSamples) := by
  refine ⟨?_, ?_, fun xs => chunkList_flatten _ xs, fun xs b hb => ?_⟩
  · simp [transcribe_from_audio_path, transcribeStream_eq]
  · simp [transcribe_from_audio_path, transcribeStream_eq]
  · have := chunkList_block_size blockSamples xs b hb
    have hbs : max blockSamples 1 = blockSamples := by
      simp [blockSamples]
    omega

/-- C5: for a two-channel signal the mono signal handed to inference is
the sample-wise SUM of the channels — at every index `i` the downmixed
sample is `channel0[i] + channel1[i]` — and `transcribe_bytes` passes
exactly this summed signal to its single inference call; at the sample
pair `(2, 0)` the result is `2`, the sum, not the mean `1`. -/
theorem downmix_samplewise_sum (infer : List ℤ → String)
    (xs : List (ℤ × ℤ)) (i : ℕ) (h : i < xs.length) :
    (downmix (Signal.stereo xs)).get
        ⟨i, by rw [downmix_stereo_length]; exact h⟩ =
      (xs.get ⟨i, h⟩).1 + (xs.get ⟨i, h⟩).2 ∧
    transcribe_bytes infer (Signal.stereo xs) =
      (infer (xs.map (fun p => p.1 + p.2))).toLower ∧
    downmix (Signal.stereo [(2, 0)]) = [2] := by
  refine ⟨?_, rfl, rfl⟩
  simp [downmix]

/-- C5 witness: on the concrete stereo signal `[(1, 2)]`, sample 0 of the
downmix is `3 = 1 + 2`. -/
theorem downmix_samplewise_sum_witness :
    (downmix (Signal.stereo [((1 : ℤ), (2 : ℤ))])).get ⟨0, by decide⟩ =
      3 :=
  ((downmix_samplewise_sum (fun _ => "") [(1, 2)] 0 (by decide)).1).trans
    (by decide)

/-- C6: for every key the grouping runs over (`char` or `word`) and every
group that actually occurs, `get_speech_rate_variability` reports the
mean, the population standard deviation, and the population variance
(mean of squared deviations from the group mean) of the token durations
of the group, each duration being the 2-decimal-rounded end time minus
the 2-decimal-rounded start time (offsets scaled by `320/16000`). -/
theorem duration_variability_stats (type : GroupKey)
    (inner : List TokenTimestamp) (outRest : List (List TokenTimestamp))
    (k : String) (hk : ∃ ts ∈ inner, ts.keyOf type = k) :
    avgAt type (inner :: outRest) k =
      some (meanSpec (groupDurationsSpec type k inner)) ∧
    stdAt type (inner :: outRest) k =
      some (Real.sqrt
        ((popVarianceSpec (groupDurationsSpec type k inner) : ℚ) : ℝ)) ∧
    varAt type (inner :: outRest) k =
      some (popVarianceSpec (groupDurationsSpec type k inner)) := by
  have htd := token_durations_eq type inner k
  have hne := groupDurationsSpec_ne_nil type inner k hk
  cases hds : groupDurationsSpec type k inner with
  | nil => exact absurd hds hne
  | cons d ds =>
      rw [hds] at htd
      refine ⟨?_, ?_, ?_⟩
      · simp [avgAt, get_speech_rate_variability, htd, meanSpec, hds]
      · simp [stdAt, get_speech_rate_variability, htd, npStd_eq, hds]
      · simp [varAt, get_speech_rate_variability, htd,
          calculate_variance_eq, hds]

/-- C6 witness: two tokens for character `"a"`, both of rounded duration
`0.02`; the reported mean is `1/50`, the standard deviation `0` and the
variance `0`. -/
theorem duration_variability_stats_witness :
    avgAt GroupKey.char [[⟨0, 1, "a", "x"⟩, ⟨100, 101, "a", "y"⟩]] "a" =
      some (1 / 50) ∧
    stdAt GroupKey.char [[⟨0, 1, "a", "x"⟩, ⟨100, 101, "a", "y"⟩]] "a" =
      some 0 ∧
    varAt GroupKey.char [[⟨0, 1, "a", "x"⟩, ⟨100, 101, "a", "y"⟩]] "a" =
      some 0 := by
  obtain ⟨h1, h2, h3⟩ := duration_variability_stats GroupKey.char
    [⟨0, 1, "a", "x"⟩, ⟨100, 101, "a", "y"⟩] [] "a"
    ⟨⟨0, 1, "a", "x"⟩, by simp, rfl⟩
  have hg : groupDurationsSpec GroupKey.char "a"
      [⟨0, 1, "a", "x"⟩, ⟨100, 101, "a", "y"⟩] = [1 / 50, 1 / 50] := by
    simp [groupDurationsSpec, durationSpec, TokenTimestamp.keyOf,
      List.filter]
    norm_num [round2, round_eq]
  rw [hg] at h1 h2 h3
  have hv : popVarianceSpec [1 / 50, 1 / 50] = 0 := by
    norm_num [popVarianceSpec, meanSpec]
  have hm : meanSpec [(1 : ℚ) / 50, 1 / 50] = 1 / 50 := by
    norm_num [meanSpec]
  rw [hv] at h2 h3
  rw [hm] at h1
  refine ⟨h1, ?_, h3⟩
  rw [h2]
  norm_num [Real.sqrt_zero]

/-- C7: for a non-empty timestamp list, `get_speech_rate_time_stamps`
returns the end offset of the last token minus the start offset of the
first token, divided by the token count and scaled by `320/16000`. -/
theorem speech_rate_formula (inner : List TokenTimestamp)
    (outRest : List (List TokenTimestamp)) (h : inner ≠ []) :
    get_speech_rate_time_stamps (inner :: outRest) =
      some (((((inner.getLast h).end_offset -
            (inner.head h).start_offset : ℤ) : ℚ) /
          ((inner.length : ℕ) : ℚ)) * 320 / 16000) := by
  cases inner with
  | nil => exact absurd rfl h
  | cons first rest =>
      simp only [get_speech_rate_time_stamps]
      rw [List.get_length_sub_one]
      rfl

/-- C7 witness: on `[[(start_offset 0, end_offset 0)]]` — one utterance
token — the speech rate is `0`. -/
theorem speech_rate_formula_witness :
    get_speech_rate_time_stamps [[⟨0, 0, "a", "a"⟩]] = some 0 := by
  rw [speech_rate_formula [⟨0, 0, "a", "a"⟩] [] (by simp)]
  norm_num

/-- C8: a group key occurring exactly once gets variance `0` and standard
deviation `0`. -/
theorem single_token_group_zero_variance (type : GroupKey)
    (inner : List TokenTimestamp) (outRest : List (List TokenTimestamp))
    (k : String)
    (h1 : (inner.filter (fun ts => ts.keyOf type = k)).length = 1) :
    varAt type (inner :: outRest) k = some 0 ∧
    stdAt type (inner :: outRest) k = some 0 := by
  have hg : ∃ d, groupDurationsSpec type k inner = [d] := by
    unfold groupDurationsSpec
    rcases List.length_eq_one.mp h1 with ⟨ts, hts⟩
    exact ⟨durationSpec ts, by rw [hts]; rfl⟩
  rcases hg with ⟨d, hd⟩
  have htd := token_durations_eq type inner k
  rw [hd] at htd
  constructor
  · simp [varAt, get_speech_rate_variability, htd, calculate_variance_eq,
      popVarianceSpec_singleton]
  · simp [stdAt, get_speech_rate_variability, htd, npStd_eq,
      popVarianceSpec_singleton]

/-- C8 witness: with the single token (start 0, end 1, char `"a"`) the
group `"a"` occurs exactly once and gets variance `0` and standard
deviation `0`. -/
theorem single_token_group_zero_variance_witness :
    (([⟨0, 1, "a", "w"⟩] : List TokenTimestamp).filter
        (fun ts => ts.keyOf GroupKey.char = "a")).length = 1 ∧
    varAt GroupKey.char [[⟨0, 1, "a", "w"⟩]] "a" = some 0 ∧
    stdAt GroupKey.char [[⟨0, 1, "a", "w"⟩]] "a" = some 0 := by
  have h1 : (([⟨0, 1, "a", "w"⟩] : List TokenTimestamp).filter
      (fun ts => ts.keyOf GroupKey.char = "a")).length = 1 := by
    simp [TokenTimestamp.keyOf, List.filter]
  obtain ⟨hv, hs⟩ :=
    single_token_group_zero_variance GroupKey.char [⟨0, 1, "a", "w"⟩] []
      "a" h1
  exact ⟨h1, hv, hs⟩

/-- C9: when format conversion occurred (conversion flag `true`) and the
temporary converted file is fresh, both `transcribe_from_audio_path` and
`classify_emotion` delete the converted file before returning: the final
file list equals the initial one and the converted file is absent from
it. -/
theorem conversion_cleanup (infer : List ℤ → String)
    (decode : String → Signal) (classify : String → List String)
    (fs : List String) (audio_path : String)
    (hfresh : (audio_path ++ ".wav") ∉ fs) :
    (transcribe_from_audio_path infer decode fs audio_path true).1 = fs ∧
    (audio_path ++ ".wav") ∉
      (transcribe_from_audio_path infer decode fs audio_path true).1 ∧
    (classify_emotion classify fs audio_path true).1 = fs ∧
    (audio_path ++ ".wav") ∉
      (classify_emotion classify fs audio_path true).1 := by
  have h1 : (transcribe_from_audio_path infer decode fs audio_path true).1 =
      fs := by
    simp [transcribe_from_audio_path, ensure_wav]
  have h2 : (classify_emotion classify fs audio_path true).1 = fs := by
    simp [classify_emotion, ensure_wav]
  exact ⟨h1, by rw [h1]; exact hfresh, h2, by rw [h2]; exact hfresh⟩

/-- C9 witness: converting `"a.mp3"` with file list `["a.mp3"]` leaves the
file list unchanged — the temporary `"a.mp3.wav"` is gone. -/
theorem conversion_cleanup_witness :
    ("a.mp3" ++ ".wav") ∉ (["a.mp3"] : List String) ∧
    (transcribe_from_audio_path (fun _ => "") (fun _ => Signal.mono [])
        ["a.mp3"] "a.mp3" true).1 = ["a.mp3"] :=
  ⟨by decide,
    (conversion_cleanup (fun _ => "") (fun _ => Signal.mono [])
      (fun _ => []) ["a.mp3"] "a.mp3" (by decide)).1⟩

/-- C10: for every timestamp input and every group key, the reported
variance and standard deviation are mutually consistent: mapping the
standard deviation to its square gives exactly the (real-cast) variance,
both present for the same keys. -/
theorem variance_matches_std_squared (type : GroupKey)
    (time_stamps : List (List TokenTimestamp)) (k : String) :
    Option.map (fun s : ℝ => s ^ 2) (stdAt type time_stamps k) =
      Option.map (fun v : ℚ => (v : ℝ)) (varAt type time_stamps k) := by
  cases time_stamps with
  | nil => rfl
  | cons inner outRest =>
      cases htd : token_durations type inner k with
      | nil => simp [stdAt, varAt, get_speech_rate_variability, htd]
      | cons d ds =>
          simp [stdAt, varAt, get_speech_rate_variability, htd,
            calculate_variance_eq, npStd_eq]
          rw [Real.sq_sqrt]
          exact_mod_cast popVarianceSpec_nonneg (d :: ds)
